import Mathlib

/-!
Verification of the `resample_zarr` repository against its specification.

The development shallowly embeds the data model and the operations of the
repository in Lean 4:

* `src/resampling/define_windows.py` — the window-definition engine
  (`_handle_numeric_dimension`, `_handle_datetime_dimension`);
* `src/resampling/down_scale.py` — the batched downscaler's per-window
  slicing, nan-aware mean, and retry loop (`_slice_dataset`,
  `_process_window`);
* `src/resampling/object_store.py` — the store client (`_create_empty_ds`,
  `write_zarr_batch`, `check_zarr_exists`, `delete_zarr`);
* `src/resampling/load.py` — the legacy free-function variant of
  `_create_empty_ds`;
* `src/resampling/make_global.py` — `expand_to_global_coverage`.

Numeric values (floats, numpy scalars, datetime64 ticks) are modelled as
rationals; the floating not-a-number sentinel is modelled by `Option ℚ`
with `none` standing for NaN.  Python loops are modelled with explicit
fuel; exceptions are modelled with `Except`/error fields.
-/

/-- One interval produced by the window-definition engine: the Python code
appends either a bare scalar (`intervals.append(start)`) or a two-element
list (`intervals.append([current, next_interval])`). -/
inductive IVal where
  | single (q : ℚ)
  | pair (a b : ℚ)
  deriving DecidableEq, Repr

/-- The `while current < stop` loop shared by `_handle_numeric_dimension`
and `_handle_datetime_dimension` in `src/resampling/define_windows.py`:
each iteration appends `[current, min(current+step, stop)]` and the running
index, advances `current` to the interval end and increments the index.
The loop is given explicit fuel; with the fuel supplied by the wrappers
below it runs to completion whenever `step > 0`. -/
def windowLoop (stop step : ℚ) : ℕ → ℚ → ℕ → List IVal × List ℕ
  | 0, _, _ => ([], [])
  | fuel + 1, current, index =>
    if current < stop then
      let next := min (current + step) stop
      let r := windowLoop stop step fuel next (index + 1)
      (IVal.pair current next :: r.1, index :: r.2)
    else ([], [])

/-- Fuel sufficient for `windowLoop` when `step > 0`: the number of forward
steps needed to move from `start` to `stop`. -/
def windowFuel (start stop step : ℚ) : ℕ :=
  (⌈(stop - start) / step⌉).toNat

/-- `_handle_numeric_dimension(start, stop, step, invert)` from
`src/resampling/define_windows.py`: a degenerate single interval when
`start == stop`; one interval `[start, stop]` when `|stop - start| < step`;
otherwise the forward walk, with the interval list (and only the interval
list) reversed when `invert` is true. -/
def handle_numeric_dimension (start stop step : ℚ) (invert : Bool) :
    List IVal × List ℕ :=
  if start = stop then ([IVal.single start], [0])
  else if |stop - start| < step then ([IVal.pair start stop], [0])
  else
    let r := windowLoop stop step (windowFuel start stop step) start 0
    ((if invert then r.1.reverse else r.1), r.2)

/-- `_handle_datetime_dimension(start, stop, step, invert)` from
`src/resampling/define_windows.py`: the same forward walk with no special
cases, with the interval list (and only the interval list) reversed when
`invert` is true.  `np.datetime64`/`np.timedelta64` ticks are modelled as
rationals. -/
def handle_datetime_dimension (start stop step : ℚ) (invert : Bool) :
    List IVal × List ℕ :=
  let r := windowLoop stop step (windowFuel start stop step) start 0
  ((if invert then r.1.reverse else r.1), r.2)

example :
    handle_numeric_dimension 50 60 5 false =
      ([IVal.pair 50 55, IVal.pair 55 60], [0, 1]) := by
  norm_num [handle_numeric_dimension, windowFuel, windowLoop]

example :
    handle_numeric_dimension 50 60 5 true =
      ([IVal.pair 55 60, IVal.pair 50 55], [0, 1]) := by
  norm_num [handle_numeric_dimension, windowFuel, windowLoop]

example :
    handle_numeric_dimension 0 5 10 false = ([IVal.pair 0 5], [0]) := by
  norm_num [handle_numeric_dimension, windowFuel, windowLoop]

/-- Characterization of the forward walk: with `step > 0` and enough fuel,
the index list is the ascending sequence starting at `index`, the loop stops
only once the cursor has reached `stop`, and the `i`-th generated interval
is `[current + i*step, min(current + (i+1)*step, stop)]`, each generated
interval starting strictly below `stop`. -/
theorem windowLoop_spec (stop step : ℚ) (hstep : 0 < step) :
    ∀ (fuel : ℕ) (current : ℚ) (index : ℕ),
      stop ≤ current + fuel * step →
      (windowLoop stop step fuel current index).2 =
        List.range' index (windowLoop stop step fuel current index).1.length ∧
      stop ≤ current +
        (windowLoop stop step fuel current index).1.length * step ∧
      ∀ i (h : i < (windowLoop stop step fuel current index).1.length),
        current + i * step < stop ∧
        (windowLoop stop step fuel current index).1.get ⟨i, h⟩ =
          IVal.pair (current + i * step) (min (current + (i + 1) * step) stop)
  | 0, current, index => by
    intro h
    simp only [windowLoop, List.length_nil, List.range'_zero]
    refine ⟨trivial, by simpa using h, ?_⟩
    intro i hi
    exact absurd hi (by simp)
  | fuel + 1, current, index => by
    intro h
    by_cases hc : current < stop
    · have hnext : stop ≤ min (current + step) stop + fuel * step := by
        rcases le_or_lt (current + step) stop with hle | hlt
        · rw [min_eq_left hle]
          have : current + (fuel + 1 : ℕ) * step =
              current + step + fuel * step := by push_cast; ring
          linarith [h, this.symm.le]
        · rw [min_eq_right hlt.le]
          nlinarith [mul_nonneg (Nat.cast_nonneg (α := ℚ) fuel) hstep.le]
      obtain ⟨ih1, ih2, ih3⟩ :=
        windowLoop_spec stop step hstep fuel (min (current + step) stop)
          (index + 1) hnext
      have hunfold : windowLoop stop step (fuel + 1) current index =
          (IVal.pair current (min (current + step) stop) ::
            (windowLoop stop step fuel (min (current + step) stop)
              (index + 1)).1,
           index ::
            (windowLoop stop step fuel (min (current + step) stop)
              (index + 1)).2) := by
        simp only [windowLoop, if_pos hc]
      rw [hunfold]
      set next := min (current + step) stop with hnextdef
      set tail := (windowLoop stop step fuel next (index + 1)).1 with htail
      refine ⟨?_, ?_, ?_⟩
      · simp only [List.length_cons, List.range'_succ, ih1]
      · have : stop ≤ next + tail.length * step := ih2
        have hle : next ≤ current + step := min_le_left _ _
        have : stop ≤ current + step + tail.length * step := by linarith
        simp only [List.length_cons]
        push_cast
        linarith
      · intro i hi
        match i with
        | 0 =>
          refine ⟨by simpa using hc, ?_⟩
          simp only [List.get_cons_zero]
          norm_num
        | j + 1 =>
          have hj : j < tail.length := by
            simpa [List.length_cons] using hi
          obtain ⟨hlt, hval⟩ := ih3 j hj
          have hnext_lt : next < stop := by
            nlinarith [mul_nonneg (Nat.cast_nonneg (α := ℚ) j) hstep.le]
          have hnext_eq : next = current + step := by
            rcases le_or_lt (current + step) stop with hle | hlt'
            · rw [hnextdef, min_eq_left hle]
            · exfalso
              rw [hnextdef, min_eq_right hlt'.le] at hnext_lt
              exact lt_irrefl _ hnext_lt
          constructor
          · rw [hnext_eq] at hlt
            have : current + (j + 1 : ℕ) * step =
                current + step + j * step := by push_cast; ring
            linarith [this.symm.le]
          · show tail.get ⟨j, hj⟩ = _
            rw [hval, hnext_eq]
            congr 1 <;> push_cast <;> ring_nf
    · have hunfold : windowLoop stop step (fuel + 1) current index =
          ([], []) := by
        simp only [windowLoop, if_neg hc]
      rw [hunfold]
      simp only [List.length_nil, List.range'_zero]
      refine ⟨trivial, ?_, ?_⟩
      · push_cast
        linarith [not_lt.mp hc]
      · intro i hi
        exact absurd hi (by simp)

/-- The fuel chosen in the wrappers is sufficient: starting at `start`, after
`windowFuel` forward steps of size `step > 0` the cursor has reached `stop`. -/
theorem windowFuel_spec (start stop step : ℚ) (hstep : 0 < step) :
    stop ≤ start + (windowFuel start stop step) * step := by
  have h1 : (stop - start) / step ≤ (⌈(stop - start) / step⌉ : ℚ) :=
    Int.le_ceil _
  have h2 : (⌈(stop - start) / step⌉ : ℚ) ≤ ((windowFuel start stop step) : ℚ) := by
    unfold windowFuel
    exact_mod_cast Int.self_le_toNat _
  have h3 : (stop - start) / step ≤ ((windowFuel start stop step) : ℚ) :=
    le_trans h1 h2
  rw [div_le_iff₀ hstep] at h3
  linarith

/-- C2.  For a numeric `(start, stop)` range with positive step and no
inversion, `_handle_numeric_dimension` produces: the single degenerate
interval `[start]` when `start = stop`; the single interval `[start, stop]`
when `|stop - start| < step`; otherwise the forward walk whose `i`-th
interval is `[start + i·step, min(start + (i+1)·step, stop)]`, each starting
strictly below `stop`, stopping exactly when the cursor reaches `stop`, the
index list being `0, 1, …, n-1` in generation order; in particular range
`(50, 60)` with step `5` yields intervals `[[50,55],[55,60]]` and indices
`[0,1]`. -/
theorem numeric_window_engine_spec (start stop step : ℚ) (hstep : 0 < step) :
    (start = stop →
      handle_numeric_dimension start stop step false =
        ([IVal.single start], [0])) ∧
    (start ≠ stop → |stop - start| < step →
      handle_numeric_dimension start stop step false =
        ([IVal.pair start stop], [0])) ∧
    (start ≠ stop → step ≤ |stop - start| →
      (handle_numeric_dimension start stop step false).2 =
        List.range
          (handle_numeric_dimension start stop step false).1.length ∧
      stop ≤ start +
        (handle_numeric_dimension start stop step false).1.length * step ∧
      ∀ i (h : i <
          (handle_numeric_dimension start stop step false).1.length),
        start + i * step < stop ∧
        (handle_numeric_dimension start stop step false).1.get ⟨i, h⟩ =
          IVal.pair (start + i * step)
            (min (start + (i + 1) * step) stop)) ∧
    handle_numeric_dimension 50 60 5 false =
      ([IVal.pair 50 55, IVal.pair 55 60], [0, 1]) := by
  refine ⟨?_, ?_, ?_, ?_⟩
  · intro heq
    simp [handle_numeric_dimension, heq]
  · intro hne hlt
    simp [handle_numeric_dimension, hne, hlt]
  · intro hne hge
    have hcond : ¬ |stop - start| < step := not_lt.mpr hge
    have hunfold : handle_numeric_dimension start stop step false =
        windowLoop stop step (windowFuel start stop step) start 0 := by
      simp [handle_numeric_dimension, hne, hcond]
    obtain ⟨h1, h2, h3⟩ :=
      windowLoop_spec stop step hstep (windowFuel start stop step) start 0
        (windowFuel_spec start stop step hstep)
    rw [hunfold]
    exact ⟨by rw [h1, List.range_eq_range'], by simpa using h2, h3⟩
  · norm_num [handle_numeric_dimension, windowFuel, windowLoop]

/-- Witness for `numeric_window_engine_spec` at `(start, stop, step) =
(50, 60, 5)`. -/
theorem numeric_window_engine_spec_witness :
    (0 : ℚ) < 5 ∧
    handle_numeric_dimension 50 60 5 false =
      ([IVal.pair 50 55, IVal.pair 55 60], [0, 1]) :=
  ⟨by norm_num, (numeric_window_engine_spec 50 60 5 (by norm_num)).2.2.2⟩

/-- C3.  With `invert = true`, both `_handle_numeric_dimension` and
`_handle_datetime_dimension` return the interval list of the non-inverted
run reversed, while the paired index list is left exactly as generated: the
ascending sequence `0, 1, …, n-1` where `n` is the number of intervals —
so after inversion the `i`-th returned interval is still paired with index
`i`. -/
theorem invert_reverses_intervals_not_indices
    (start stop step : ℚ) (hstep : 0 < step) :
    ((handle_numeric_dimension start stop step true).1 =
       ((handle_numeric_dimension start stop step false).1).reverse ∧
     (handle_numeric_dimension start stop step true).2 =
       (handle_numeric_dimension start stop step false).2 ∧
     (handle_numeric_dimension start stop step true).2 =
       List.range
         (handle_numeric_dimension start stop step true).1.length) ∧
    ((handle_datetime_dimension start stop step true).1 =
       ((handle_datetime_dimension start stop step false).1).reverse ∧
     (handle_datetime_dimension start stop step true).2 =
       (handle_datetime_dimension start stop step false).2 ∧
     (handle_datetime_dimension start stop step true).2 =
       List.range
         (handle_datetime_dimension start stop step true).1.length) := by
  obtain ⟨hl1, _, _⟩ :=
    windowLoop_spec stop step hstep (windowFuel start stop step) start 0
      (windowFuel_spec start stop step hstep)
  constructor
  · by_cases heq : start = stop
    · simp [handle_numeric_dimension, heq]
      decide
    · by_cases hlt : |stop - start| < step
      · simp [handle_numeric_dimension, heq, hlt]
        decide
      · refine ⟨by simp [handle_numeric_dimension, heq, hlt], ?_, ?_⟩
        · simp [handle_numeric_dimension, heq, hlt]
        · have : (handle_numeric_dimension start stop step true) =
              (((windowLoop stop step (windowFuel start stop step)
                  start 0).1).reverse,
               (windowLoop stop step (windowFuel start stop step)
                  start 0).2) := by
            simp [handle_numeric_dimension, heq, hlt]
          rw [this]
          simpa [List.range_eq_range'] using hl1
  · refine ⟨by simp [handle_datetime_dimension], ?_, ?_⟩
    · simp [handle_datetime_dimension]
    · have : (handle_datetime_dimension start stop step true) =
          (((windowLoop stop step (windowFuel start stop step)
              start 0).1).reverse,
           (windowLoop stop step (windowFuel start stop step)
              start 0).2) := by
        simp [handle_datetime_dimension]
      rw [this]
      simpa [List.range_eq_range'] using hl1

/-- Witness for `invert_reverses_intervals_not_indices` at `(50, 60, 5)`:
inverting reverses the two generated intervals while the indices stay
`[0, 1]`. -/
theorem invert_reverses_intervals_not_indices_witness :
    (handle_numeric_dimension 50 60 5 true).1 =
      ((handle_numeric_dimension 50 60 5 false).1).reverse ∧
    (handle_numeric_dimension 50 60 5 true).2 =
      List.range (handle_numeric_dimension 50 60 5 true).1.length :=
  ⟨(invert_reverses_intervals_not_indices 50 60 5 (by norm_num)).1.1,
   (invert_reverses_intervals_not_indices 50 60 5 (by norm_num)).1.2.2⟩

/-- A per-dimension window entry as consumed by `_slice_dataset` in
`src/resampling/down_scale.py`: a bare scalar, a 1-element interval, or a
2-element `[start, end]` interval. -/
inductive WBound where
  | scalar (q : ℚ)
  | one (q : ℚ)
  | pair (a b : ℚ)
  deriving DecidableEq, Repr

/-- The `(start, end)` pair `_slice_dataset` derives from a window entry:
a scalar or 1-element interval gives `start = end = value`, a 2-element
interval gives its two members. -/
def WBound.bounds : WBound → ℚ × ℚ
  | .scalar q => (q, q)
  | .one q => (q, q)
  | .pair a b => (a, b)

/-- A native cell of the source dataset: its coordinate vector (one entry
per dimension) and its value (`none` = NaN). -/
def Cell : Type := List ℚ × Option ℚ

/-- Whether a cell's coordinates fall inside the window.  A window is a
positional list of optional bounds (one per dataset dimension, `none` for a
dimension not named in the window); `ds.sel(dim=slice(start, end))` keeps
the labels in the closed interval `[start, end]` on an ascending
coordinate. -/
def inWindow (w : List (Option WBound)) (coords : List ℚ) : Bool :=
  (List.zip w coords).all fun p =>
    match p.1 with
    | none => true
    | some b => decide ((b.bounds).1 ≤ p.2) && decide (p.2 ≤ (b.bounds).2)

/-- `_slice_dataset(ds, window)` from `src/resampling/down_scale.py`:
restricts the dataset to the cells selected by the window's per-dimension
slices. -/
def slice_dataset (cells : List Cell) (w : List (Option WBound)) :
    List Cell :=
  cells.filter (fun c => inWindow w c.1)

/-- `np.nanmean`: the arithmetic mean of the non-NaN entries, NaN when
there is none. -/
def nanmean (vs : List (Option ℚ)) : Option ℚ :=
  let xs := vs.filterMap id
  if xs.isEmpty then none else some (xs.sum / xs.length)

/-- The successful body of `_process_window` in
`src/resampling/down_scale.py` for a present variable: slice to the window,
and return NaN when the selection is empty or all-NaN, the nan-aware mean
otherwise. -/
def process_window_mean (cells : List Cell) (w : List (Option WBound)) :
    Option ℚ :=
  let values := (slice_dataset cells w).map Prod.snd
  if values.isEmpty || values.all Option.isNone then none
  else nanmean values

/-- C1.  The batched downscaler's per-window value is the arithmetic mean
of the non-NaN values of the cells selected by the window, it is NaN
exactly when the window selects no cell or only NaN cells, and a window
selecting cells `[1, 2, NaN, 4]` yields `7/3`. -/
theorem batched_mean_spec (cells : List Cell) (w : List (Option WBound)) :
    (process_window_mean cells w =
      (let sel := ((slice_dataset cells w).map Prod.snd).filterMap id
       if sel.isEmpty then none
       else some (sel.sum / sel.length))) ∧
    (process_window_mean cells w = none ↔
      slice_dataset cells w = [] ∨
        ∀ c ∈ slice_dataset cells w, c.2 = none) ∧
    process_window_mean
      ([([0], some 1), ([1], some 2), ([2], none), ([3], some 4)] :
        List Cell)
      [some (WBound.pair 0 3)] = some (7 / 3) := by
  have hkey : ∀ vs : List (Option ℚ),
      (vs.isEmpty || vs.all Option.isNone) = true ↔ vs.filterMap id = [] := by
    intro vs
    constructor
    · intro h
      rcases Bool.or_eq_true_iff.mp h with h | h
      · simp [List.isEmpty_iff.mp h]
      · rw [List.filterMap_eq_nil_iff]
        intro a ha
        have := List.all_eq_true.mp h a ha
        simpa [Option.isNone_iff_eq_none] using this
    · intro h
      rcases vs.eq_nil_or_concat with rfl | _
      · simp
      · apply Bool.or_eq_true_iff.mpr
        right
        rw [List.all_eq_true]
        intro a ha
        have := (List.filterMap_eq_nil_iff.mp h) a ha
        simpa [Option.isNone_iff_eq_none] using this
  refine ⟨?_, ?_, ?_⟩
  · unfold process_window_mean nanmean
    by_cases hsel :
        (((slice_dataset cells w).map Prod.snd).isEmpty ||
          ((slice_dataset cells w).map Prod.snd).all Option.isNone) = true
    · rw [if_pos hsel]
      have := (hkey _).mp hsel
      simp [this]
    · rw [if_neg hsel]
  · unfold process_window_mean
    by_cases hsel :
        (((slice_dataset cells w).map Prod.snd).isEmpty ||
          ((slice_dataset cells w).map Prod.snd).all Option.isNone) = true
    · rw [if_pos hsel]
      simp only [true_iff]
      have := (hkey _).mp hsel
      rw [List.filterMap_eq_nil_iff] at this
      rcases List.eq_nil_or_concat (slice_dataset cells w) with hnil | _
      · exact Or.inl hnil
      · refine Or.inr fun c hc => ?_
        have := this c.2 (List.mem_map.mpr ⟨c, hc, rfl⟩)
        simpa using this
    · rw [if_neg hsel]
      have hne : ¬ ((slice_dataset cells w).map Prod.snd).filterMap id
          = [] := fun h => hsel ((hkey _).mpr h)
      constructor
      · intro hmean
        exfalso
        unfold nanmean at hmean
        simp only [List.isEmpty_iff] at hmean
        rw [if_neg hne] at hmean
        exact Option.some_ne_none _ hmean
      · intro hcase
        exfalso
        apply hne
        rw [List.filterMap_eq_nil_iff]
        rcases hcase with hnil | hall
        · simp [hnil]
        · intro a ha
          obtain ⟨c, hc, rfl⟩ := List.mem_map.mp ha
          simpa using hall c hc
  · norm_num [process_window_mean, slice_dataset, nanmean, inWindow,
      WBound.bounds, List.filter, List.filterMap]

/-- The retry loop of `_process_window` in `src/resampling/down_scale.py`.
`attempt r` is the outcome of the try-body on the invocation made with
`retries = r`: `Except.ok m` is a successful computation of the window mean
`m` (`m = none` being a legitimately-NaN mean), `Except.error` an exception
caught by the `except` clause.  On an exception the counter is incremented;
once it reaches `max_retries` the task returns `(global_counter, NaN)`
instead of re-raising.  The value `none` of the outer `Option` corresponds
to Python's implicit `None` when the `while` guard fails immediately
(unreachable for `max_retries > 0`). -/
def processWindowLoop (attempt : ℕ → Except Unit (Option ℚ))
    (global_counter maxRetries retries : ℕ) : Option (ℕ × Option ℚ) :=
  if h : retries < maxRetries then
    match attempt retries with
    | .ok m => some (global_counter, m)
    | .error _ =>
      if retries + 1 ≥ maxRetries then some (global_counter, none)
      else processWindowLoop attempt global_counter maxRetries (retries + 1)
  else none
  termination_by maxRetries - retries
  decreasing_by omega

/-- `_process_window(i, window, var, ds, offset)`: `global_counter = i +
offset`, `max_retries = 5`, starting with `retries = 0`. -/
def process_window (attempt : ℕ → Except Unit (Option ℚ))
    (i offset : ℕ) : Option (ℕ × Option ℚ) :=
  processWindowLoop attempt (i + offset) 5 0

/-- If every invocation with `retries ∈ [r, k)` fails and the invocation
with `retries = k < maxRetries` succeeds with `m`, the loop started at `r`
returns `(global_counter, m)`. -/
theorem processWindowLoop_succeeds (attempt : ℕ → Except Unit (Option ℚ))
    (gc maxR k : ℕ) (m : Option ℚ) (hk : k < maxR)
    (hsucc : attempt k = .ok m) :
    ∀ d r, k = r + d → (∀ j, r ≤ j → j < k → attempt j = .error ()) →
      processWindowLoop attempt gc maxR r = some (gc, m)
  | 0, r => by
    intro hr hfail
    have hreq : r = k := by omega
    subst hreq
    unfold processWindowLoop
    rw [dif_pos hk, hsucc]
  | d + 1, r => by
    intro hr hfail
    have hrk : r < k := by omega
    have hrm : r < maxR := lt_trans hrk hk
    have herr : attempt r = .error () := hfail r le_rfl hrk
    unfold processWindowLoop
    rw [dif_pos hrm, herr]
    have hnot : ¬ r + 1 ≥ maxR := by omega
    rw [if_neg hnot]
    exact processWindowLoop_succeeds attempt gc maxR k m hk hsucc d (r + 1)
      (by omega) (fun j hj hjk => hfail j (by omega) hjk)

/-- If every invocation with `retries ∈ [r, maxR)` fails, the loop started
at `r < maxR` returns `(global_counter, NaN)` rather than raising. -/
theorem processWindowLoop_exhausts (attempt : ℕ → Except Unit (Option ℚ))
    (gc maxR : ℕ) :
    ∀ d r, maxR = r + d → r < maxR →
      (∀ j, r ≤ j → j < maxR → attempt j = .error ()) →
      processWindowLoop attempt gc maxR r = some (gc, none)
  | 0, r => by omega
  | d + 1, r => by
    intro hr hrm hfail
    have herr : attempt r = .error () := hfail r le_rfl hrm
    unfold processWindowLoop
    rw [dif_pos hrm, herr]
    by_cases hlast : r + 1 ≥ maxR
    · rw [if_pos hlast]
    · rw [if_neg hlast]
      exact processWindowLoop_exhausts attempt gc maxR d (r + 1) (by omega)
        (by omega) (fun j hj hjk => hfail j (by omega) hjk)

/-- C5.  A per-window task that fails on its first `k < 5` attempts and
succeeds on the `(k+1)`-th returns its window index together with the
correctly computed mean; a task that fails on all 5 attempts returns its
window index paired with NaN, as a normal return value rather than an
exception, so a single failing window never aborts its batch. -/
theorem retry_spec (attempt : ℕ → Except Unit (Option ℚ))
    (i offset k : ℕ) (m : Option ℚ) (hk : k < 5) :
    ((∀ j < k, attempt j = .error ()) → attempt k = .ok m →
      process_window attempt i offset = some (i + offset, m)) ∧
    ((∀ j < 5, attempt j = .error ()) →
      process_window attempt i offset = some (i + offset, none)) := by
  constructor
  · intro hfail hsucc
    exact processWindowLoop_succeeds attempt (i + offset) 5 k m hk hsucc k 0
      (by omega) (fun j _ hjk => hfail j hjk)
  · intro hfail
    exact processWindowLoop_exhausts attempt (i + offset) 5 5 0 (by omega)
      (by omega) (fun j _ hj => hfail j hj)

/-- A window computation that fails on its first two attempts and then
returns mean `3`. -/
def flakyAttempt : ℕ → Except Unit (Option ℚ) :=
  fun j => if j < 2 then .error () else .ok (some 3)

/-- Witness for `retry_spec`: with `flakyAttempt` (two failures, then
success with mean `3`), window `1` at offset `10` returns `(11, 3)`; a
task whose attempts all fail returns `(11, NaN)`. -/
theorem retry_spec_witness :
    process_window flakyAttempt 1 10 = some (11, some 3) ∧
    process_window (fun _ => .error ()) 1 10 = some (11, none) := by
  constructor
  · exact (retry_spec flakyAttempt 1 10 2 (some 3) (by omega)).1
      (fun j hj => by simp [flakyAttempt, hj])
      (by simp [flakyAttempt])
  · exact (retry_spec (fun _ => .error ()) 1 10 0 none (by omega)).2
      (fun j _ => rfl)

/-- Python exception kinds raised by the modelled store code. -/
inductive PyErr where
  | indexError
  | typeError
  | keyError
  | valueError
  | fileNotFound
  deriving DecidableEq, Repr

/-- One entry of a coordinate-range descriptor handed to
`_create_empty_ds`: either a bare number or a (nested) list of numbers. -/
inductive RangeEntry where
  | scalar (q : ℚ)
  | interval (l : List ℚ)
  deriving DecidableEq, Repr

/-- `np.arange(a, b)` with the default step 1: the values `a + i` for
`i < ⌈b - a⌉`. -/
def arange1 (a b : ℚ) : List ℚ :=
  (List.range (Int.toNat ⌈b - a⌉)).map (fun i => a + i)

/-- `[(interval[0] + interval[1]) / 2 for interval in ranges if
len(interval) == 2]`: the midpoints of the 2-element entries; `len()` of a
bare number raises TypeError. -/
def midpointsOf : List RangeEntry → Except PyErr (List ℚ)
  | [] => .ok []
  | .scalar _ :: _ => .error .typeError
  | .interval l :: rest => do
    let t ← midpointsOf rest
    match l with
    | [a, b] => .ok ((a + b) / 2 :: t)
    | _ => .ok t

/-- `[interval[0] for interval in ranges if len(interval) == 1]`: the
single members of the 1-element entries. -/
def singlesOf : List RangeEntry → Except PyErr (List ℚ)
  | [] => .ok []
  | .scalar _ :: _ => .error .typeError
  | .interval l :: rest => do
    let t ← singlesOf rest
    match l with
    | [a] => .ok (a :: t)
    | _ => .ok t

/-- `np.array(ranges, dtype='datetime64[ns]')` on a flat list of boundary
values: the literal values, as nanosecond timestamps modelled by their
rational tick count. -/
def scalarsOf : List RangeEntry → Except PyErr (List ℚ)
  | [] => .ok []
  | .scalar q :: rest => do
    let t ← scalarsOf rest
    .ok (q :: t)
  | .interval _ :: _ => .error .typeError

/-- The per-dimension coordinate axis computed by
`ObjectStore._create_empty_ds` in `src/resampling/object_store.py`:
`"time"` takes the literal values; a descriptor whose first entry is a list
takes the midpoints of the 2-element entries followed by the members of the
1-element entries; otherwise `np.arange(ranges[0], ranges[1])` — which
reads `ranges[1]` and therefore raises IndexError on a flat descriptor of
length 1. -/
def object_store_coord (dim : String) (ranges : List RangeEntry) :
    Except PyErr (List ℚ) :=
  if dim = "time" then scalarsOf ranges
  else
    match ranges with
    | [] => .error .indexError
    | .interval _ :: _ => do
      let ms ← midpointsOf ranges
      let ss ← singlesOf ranges
      .ok (ms ++ ss)
    | [.scalar _] => .error .indexError
    | .scalar a :: .scalar b :: _ => .ok (arange1 a b)
    | .scalar _ :: .interval _ :: _ => .error .typeError

/-- The per-dimension coordinate axis computed by the legacy
`_create_empty_ds` in `src/resampling/load.py`: identical to the
`ObjectStore` variant except that a flat descriptor of length 1 yields the
descriptor itself (the one value) instead of reaching `np.arange`. -/
def load_coord (dim : String) (ranges : List RangeEntry) :
    Except PyErr (List ℚ) :=
  if dim = "time" then scalarsOf ranges
  else
    match ranges with
    | [] => .error .indexError
    | .interval _ :: _ => do
      let ms ← midpointsOf ranges
      let ss ← singlesOf ranges
      .ok (ms ++ ss)
    | [.scalar a] => .ok [a]
    | .scalar a :: .scalar b :: _ => .ok (arange1 a b)
    | .scalar _ :: .interval _ :: _ => .error .typeError

/-- A dataset variable: its dimension names in native order, its shape,
and its cell values indexed by integer tuples (`none` = NaN). -/
structure DSVariable where
  dims : List String
  shape : List ℕ
  data : List ℕ → Option ℚ

/-- An in-memory dataset: insertion-ordered coordinates and named
variables. -/
structure PyDataset where
  coords : List (String × List ℚ)
  vars : List (String × DSVariable)

/-- `ObjectStore._create_empty_ds(coordinate_ranges, variables)`: one
coordinate axis per descriptor, every variable a full-shape array over the
dimensions in insertion order, filled entirely with NaN. -/
def create_empty_ds (coordinate_ranges : List (String × List RangeEntry))
    (var_names : List String) : Except PyErr PyDataset := do
  let coords ← coordinate_ranges.mapM (fun p => do
    let c ← object_store_coord p.1 p.2
    pure (p.1, c))
  let dims := coords.map Prod.fst
  let shape := coords.map (fun p => p.2.length)
  .ok ⟨coords, var_names.map (fun v => (v, ⟨dims, shape, fun _ => none⟩))⟩

/-- The legacy `_create_empty_ds` of `src/resampling/load.py` (identical
but for the length-1 flat-descriptor branch of the coordinate rule). -/
def load_create_empty_ds
    (coordinate_ranges : List (String × List RangeEntry))
    (var_names : List String) : Except PyErr PyDataset := do
  let coords ← coordinate_ranges.mapM (fun p => do
    let c ← load_coord p.1 p.2
    pure (p.1, c))
  let dims := coords.map Prod.fst
  let shape := coords.map (fun p => p.2.length)
  .ok ⟨coords, var_names.map (fun v => (v, ⟨dims, shape, fun _ => none⟩))⟩

/-- `indices = [index.get(dim) for dim in dim_names]`: resolve the
per-dimension-name index map to the variable's native dimension order;
`dict.get` yields `None` for a missing key. -/
def resolveIndex (dims : List String) (index : List (String × ℤ)) :
    List (Option ℤ) :=
  dims.map (fun d => index.lookup d)

/-- `all(0 <= indices[i] < variable.shape[i] for i in range(len(dim_names)))`,
evaluated left to right: comparing `None` raises TypeError, a failed bound
short-circuits to `False`. -/
def checkBounds : List (Option ℤ) → List ℕ → Except PyErr Bool
  | [], _ => .ok true
  | none :: _, _ => .error .typeError
  | some _ :: _, [] => .error .indexError
  | some i :: rest, s :: srest =>
    if 0 ≤ i ∧ i < (s : ℤ) then checkBounds rest srest else .ok false

/-- The assignment loop of `write_zarr_batch`: for each `(value, index)`
pair, check bounds, raise IndexError on the first failure, otherwise
assign the scalar at the resolved cell of the in-memory variable. -/
def writeBatchLoop (varb : DSVariable)
    (pairs : List (Option ℚ × List (String × ℤ))) :
    Except PyErr DSVariable :=
  match pairs with
  | [] => .ok varb
  | (v, index) :: rest =>
    match checkBounds (resolveIndex varb.dims index) varb.shape with
    | .error e => .error e
    | .ok ok =>
      if ok then
        writeBatchLoop
          { varb with
            data := fun j =>
              if j = (resolveIndex varb.dims index).map
                  (fun o => (o.getD 0).toNat) then v
              else varb.data j }
          rest
      else .error .indexError

/-- Replace a variable's stored contents in a dataset. -/
def PyDataset.setVar (ds : PyDataset) (name : String) (v : DSVariable) :
    PyDataset :=
  { ds with vars := ds.vars.map (fun p => if p.1 = name then (p.1, v) else p) }

/-- Result of one `write_zarr_batch` call: the persisted destination store
after the call, the number of whole-store reads (`extract_zarr`) and
whole-store writes (`write_zarr`) it performed, and the exception it
raised, if any. -/
structure BatchOutcome where
  store : PyDataset
  reads : ℕ
  writes : ℕ
  error : Option PyErr

/-- `ObjectStore.write_zarr_batch(path, variable_name, batch_values,
indexes)` from `src/resampling/object_store.py`: a no-op when every batch
value is NaN; otherwise it re-opens the destination (one read), assigns
each `(value, index)` pair in memory, raising IndexError on the first
out-of-bounds pair before any store write, and rewrites the whole store
(one write) only after every pair has been assigned. -/
def write_zarr_batch (persisted : PyDataset) (variable_name : String)
    (batch_values : List (Option ℚ))
    (indexes : List (List (String × ℤ))) : BatchOutcome :=
  if batch_values.all Option.isNone then
    ⟨persisted, 0, 0, none⟩
  else
    match (persisted.vars.lookup variable_name) with
    | none => ⟨persisted, 1, 0, some .keyError⟩
    | some varb =>
      match writeBatchLoop varb (batch_values.zip indexes) with
      | .error e => ⟨persisted, 1, 0, some e⟩
      | .ok v => ⟨persisted.setVar variable_name v, 1, 1, none⟩

/-- C9.  Whenever `write_zarr_batch` raises, the persisted destination
store is unchanged and no store write was performed: the whole-store
rewrite happens only after every pair of the batch has been assigned in
memory, and the exception is raised before it. -/
theorem write_batch_atomic (persisted : PyDataset) (vname : String)
    (bv : List (Option ℚ)) (idx : List (List (String × ℤ))) (e : PyErr)
    (h : (write_zarr_batch persisted vname bv idx).error = some e) :
    (write_zarr_batch persisted vname bv idx).store = persisted ∧
    (write_zarr_batch persisted vname bv idx).writes = 0 := by
  by_cases hall : bv.all Option.isNone
  · have heq : write_zarr_batch persisted vname bv idx =
        ⟨persisted, 0, 0, none⟩ := by
      unfold write_zarr_batch
      rw [if_pos hall]
    rw [heq] at h
    exact absurd h (by simp)
  · cases hv : persisted.vars.lookup vname with
    | none =>
      have heq : write_zarr_batch persisted vname bv idx =
          ⟨persisted, 1, 0, some .keyError⟩ := by
        unfold write_zarr_batch
        rw [if_neg hall, hv]
      rw [heq]
      exact ⟨rfl, rfl⟩
    | some varb =>
      cases hw : writeBatchLoop varb (bv.zip idx) with
      | error e' =>
        have heq : write_zarr_batch persisted vname bv idx =
            ⟨persisted, 1, 0, some e'⟩ := by
          unfold write_zarr_batch
          rw [if_neg hall, hv]
          dsimp only
          rw [hw]
        rw [heq]
        exact ⟨rfl, rfl⟩
      | ok v =>
        have heq : write_zarr_batch persisted vname bv idx =
            ⟨persisted.setVar vname v, 1, 1, none⟩ := by
          unfold write_zarr_batch
          rw [if_neg hall, hv]
          dsimp only
          rw [hw]
        rw [heq] at h
        exact absurd h (by simp)

/-- A one-cell destination store used by the concrete witnesses: one
dimension `x` of size 1, one all-NaN variable `t`. -/
def tinyStore : PyDataset :=
  ⟨[("x", [0])], [("t", ⟨["x"], [1], fun _ => none⟩)]⟩

/-- Witness for `write_batch_atomic`: writing value `1` at the
out-of-bounds index `x = 5` into `tinyStore` raises IndexError and leaves
the persisted store untouched with zero writes. -/
theorem write_batch_atomic_witness :
    (write_zarr_batch tinyStore "t" [some 1] [[("x", 5)]]).error =
      some PyErr.indexError ∧
    (write_zarr_batch tinyStore "t" [some 1] [[("x", 5)]]).store =
      tinyStore ∧
    (write_zarr_batch tinyStore "t" [some 1] [[("x", 5)]]).writes = 0 :=
  ⟨rfl,
   (write_batch_atomic tinyStore "t" [some 1] [[("x", 5)]]
     PyErr.indexError rfl).1,
   (write_batch_atomic tinyStore "t" [some 1] [[("x", 5)]]
     PyErr.indexError rfl).2⟩

/-- A resolved index is in bounds for a variable: every dimension of the
variable resolves to some integer within `[0, shape)` on that axis. -/
def PairInBounds (varb : DSVariable) (index : List (String × ℤ)) : Prop :=
  ∀ p ∈ (resolveIndex varb.dims index).zip varb.shape,
    ∃ z, p.1 = some z ∧ 0 ≤ z ∧ z < (p.2 : ℤ)

/-- The reference description of the assignment loop: each `(value, index)`
pair in order overwrites the cell at the index resolved to the dimension
order. -/
def applyPairs (dims : List String) (data : List ℕ → Option ℚ)
    (pairs : List (Option ℚ × List (String × ℤ))) : List ℕ → Option ℚ :=
  pairs.foldl
    (fun d p => fun j =>
      if j = (resolveIndex dims p.2).map (fun o => (o.getD 0).toNat) then p.1
      else d j)
    data

/-- When every position resolves and is in bounds, the bounds check
passes. -/
theorem checkBounds_all_ok :
    ∀ (rs : List (Option ℤ)) (ss : List ℕ),
      rs.length = ss.length →
      (∀ p ∈ rs.zip ss, ∃ z, p.1 = some z ∧ 0 ≤ z ∧ z < (p.2 : ℤ)) →
      checkBounds rs ss = .ok true
  | [], [] => fun _ _ => rfl
  | [], _ :: _ => by intro hlen; simp at hlen
  | _ :: _, [] => by intro hlen; simp at hlen
  | o :: rest, s :: srest => by
    intro hlen h
    obtain ⟨z, hz, hz0, hzs⟩ := h (o, s) (by simp)
    simp only at hz
    subst hz
    unfold checkBounds
    rw [if_pos ⟨hz0, hzs⟩]
    exact checkBounds_all_ok rest srest (by simpa using hlen)
      (fun p hp => h p (by simp [hp]))

/-- When every position resolves but some position is out of bounds, the
bounds check evaluates to `False` (rather than raising). -/
theorem checkBounds_violation :
    ∀ (rs : List (Option ℤ)) (ss : List ℕ),
      rs.length = ss.length →
      (∀ o ∈ rs, o.isSome) →
      (∃ p ∈ rs.zip ss, ∀ z, p.1 = some z → ¬(0 ≤ z ∧ z < (p.2 : ℤ))) →
      checkBounds rs ss = .ok false
  | [], [] => by intro _ _ h; simp at h
  | [], _ :: _ => by intro hlen; simp at hlen
  | _ :: _, [] => by intro hlen; simp at hlen
  | o :: rest, s :: srest => by
    intro hlen hres hviol
    obtain ⟨z, hz⟩ := Option.isSome_iff_exists.mp (hres o (by simp))
    subst hz
    unfold checkBounds
    by_cases hin : 0 ≤ z ∧ z < (s : ℤ)
    · rw [if_pos hin]
      apply checkBounds_violation rest srest (by simpa using hlen)
        (fun o ho => hres o (by simp [ho]))
      obtain ⟨p, hp, hpviol⟩ := hviol
      rcases List.mem_cons.mp (by simpa using hp) with rfl | hmem
      · exact absurd hin (hpviol z rfl)
      · exact ⟨p, hmem, hpviol⟩
    · rw [if_neg hin]

/-- Assignment loop, success case: when every pair of the batch is in
bounds the loop succeeds, leaving the dims and shape unchanged and the
data equal to the in-order fold of the single-cell assignments. -/
theorem writeBatchLoop_ok :
    ∀ (pairs : List (Option ℚ × List (String × ℤ))) (varb : DSVariable),
      varb.dims.length = varb.shape.length →
      (∀ pr ∈ pairs, PairInBounds varb pr.2) →
      writeBatchLoop varb pairs =
        .ok { varb with data := applyPairs varb.dims varb.data pairs }
  | [], varb => fun _ _ => rfl
  | (v, index) :: rest, varb => by
    intro hlen hall
    have hhead := hall (v, index) (by simp)
    have hchk : checkBounds (resolveIndex varb.dims index) varb.shape =
        .ok true :=
      checkBounds_all_ok _ _
        (by simpa [resolveIndex] using hlen) hhead
    unfold writeBatchLoop
    rw [hchk]
    dsimp only
    rw [if_pos rfl]
    exact writeBatchLoop_ok rest _ hlen
      (fun pr hpr => hall pr (by simp [hpr]))

/-- Assignment loop, failure case: when every pair of the batch resolves
on every dimension but some pair is out of bounds, the loop raises
IndexError. -/
theorem writeBatchLoop_err :
    ∀ (pairs : List (Option ℚ × List (String × ℤ))) (varb : DSVariable),
      varb.dims.length = varb.shape.length →
      (∀ pr ∈ pairs, ∀ o ∈ resolveIndex varb.dims pr.2, o.isSome) →
      (∃ pr ∈ pairs, ¬ PairInBounds varb pr.2) →
      writeBatchLoop varb pairs = .error .indexError
  | [], varb => by intro _ _ h; simp at h
  | (v, index) :: rest, varb => by
    intro hlen hres hviol
    by_cases hhead : PairInBounds varb index
    · have hchk : checkBounds (resolveIndex varb.dims index) varb.shape =
          .ok true :=
        checkBounds_all_ok _ _
          (by simpa [resolveIndex] using hlen) hhead
      unfold writeBatchLoop
      rw [hchk]
      dsimp only
      rw [if_pos rfl]
      refine writeBatchLoop_err rest _ ?_ ?_ ?_
      · exact hlen
      · exact fun pr hpr => hres pr (by simp [hpr])
      · obtain ⟨pr, hpr, hprviol⟩ := hviol
        rcases List.mem_cons.mp hpr with rfl | hmem
        · exact absurd hhead hprviol
        · exact ⟨pr, hmem, hprviol⟩
    · have hchk : checkBounds (resolveIndex varb.dims index) varb.shape =
          .ok false := by
        apply checkBounds_violation _ _
          (by simpa [resolveIndex] using hlen)
          (hres (v, index) (by simp))
        rw [PairInBounds] at hhead
        push_neg at hhead
        obtain ⟨p, hp, hpv⟩ := hhead
        refine ⟨p, hp, fun z hz hcon => ?_⟩
        have hle := hpv z hz hcon.1
        exact absurd hcon.2 (not_lt.mpr hle)
      unfold writeBatchLoop
      rw [hchk]
      dsimp only
      rw [if_neg (by simp)]

/-- C6.  `write_zarr_batch` performs no store read or write at all when
every batch value is NaN; otherwise, with the destination variable present,
every index map resolving on every native dimension: a batch whose every
resolved index is in bounds assigns each scalar at its resolved cell
(one read, one rewrite, no error), while a batch containing any
out-of-bounds resolved index raises IndexError to the caller (one read, no
rewrite). -/
theorem write_batch_contract (persisted : PyDataset) (vname : String)
    (bv : List (Option ℚ)) (idx : List (List (String × ℤ))) :
    (bv.all Option.isNone →
      write_zarr_batch persisted vname bv idx = ⟨persisted, 0, 0, none⟩) ∧
    ∀ varb, (bv.all Option.isNone) = false →
      persisted.vars.lookup vname = some varb →
      varb.dims.length = varb.shape.length →
      ((∀ pr ∈ bv.zip idx, PairInBounds varb pr.2) →
        write_zarr_batch persisted vname bv idx =
          ⟨persisted.setVar vname
            { varb with
              data := applyPairs varb.dims varb.data (bv.zip idx) },
           1, 1, none⟩) ∧
      ((∀ pr ∈ bv.zip idx, ∀ o ∈ resolveIndex varb.dims pr.2, o.isSome) →
        (∃ pr ∈ bv.zip idx, ¬ PairInBounds varb pr.2) →
        write_zarr_batch persisted vname bv idx =
          ⟨persisted, 1, 0, some .indexError⟩) := by
  constructor
  · intro hall
    unfold write_zarr_batch
    rw [if_pos hall]
  · intro varb hall hv hlen
    have hnall : ¬ bv.all Option.isNone = true := by simp [hall]
    constructor
    · intro hin
      have hloop := writeBatchLoop_ok (bv.zip idx) varb hlen hin
      unfold write_zarr_batch
      rw [if_neg hnall, hv]
      dsimp only
      rw [hloop]
    · intro hres hviol
      have hloop := writeBatchLoop_err (bv.zip idx) varb hlen hres hviol
      unfold write_zarr_batch
      rw [if_neg hnall, hv]
      dsimp only
      rw [hloop]

/-- Witness for `write_batch_contract` on `tinyStore`: an all-NaN batch is
a no-op with zero reads and writes; a batch writing `3` at the in-bounds
index `x = 0` performs one read and one rewrite and stores the value. -/
theorem write_batch_contract_witness :
    write_zarr_batch tinyStore "t" [none] [[("x", 0)]] =
      ⟨tinyStore, 0, 0, none⟩ ∧
    ∃ v, write_zarr_batch tinyStore "t" [some 3] [[("x", 0)]] =
        ⟨tinyStore.setVar "t" v, 1, 1, none⟩ ∧
      v.data [0] = some 3 := by
  constructor
  · exact (write_batch_contract tinyStore "t" [none] [[("x", 0)]]).1 rfl
  · refine ⟨{ dims := ["x"], shape := [1],
              data := applyPairs ["x"] (fun _ => none)
                ([some 3].zip [[("x", 0)]]) }, ?_, ?_⟩
    · refine ((write_batch_contract tinyStore "t" [some 3]
        [[("x", 0)]]).2 ⟨["x"], [1], fun _ => none⟩ rfl rfl rfl).1 ?_
      intro pr hpr
      rcases List.mem_cons.mp hpr with rfl | hmem
      · intro p hp
        have hpp : p = (some 0, 1) := by
          simpa [resolveIndex] using hp
        subst hpp
        exact ⟨0, rfl, by norm_num⟩
      · simp at hmem
    · rfl

/-- C4.  `create_empty_zarr` with `coordinate_ranges = {latitude:
[[50,55],[55,60]], longitude: [[-10,0],[0,10]]}` and `variables = ["temp"]`
builds a skeleton whose latitude coordinate is the midpoints
`{52.5, 57.5}`, whose longitude coordinate is `{-5, 5}`, and whose `temp`
variable is entirely NaN; a subsequent `write_zarr_batch` setting index
`{latitude: 0, longitude: 1}` to `12.5` succeeds and leaves exactly that
cell equal to `12.5` and every other cell unchanged (NaN). -/
theorem skeleton_roundtrip_spec :
    ∃ ds : PyDataset,
      create_empty_ds
        [("latitude",
          [RangeEntry.interval [50, 55], RangeEntry.interval [55, 60]]),
         ("longitude",
          [RangeEntry.interval [-10, 0], RangeEntry.interval [0, 10]])]
        ["temp"] = .ok ds ∧
      ds.coords =
        [("latitude", [105 / 2, 115 / 2]), ("longitude", [-5, 5])] ∧
      ds.vars.map Prod.fst = ["temp"] ∧
      (∀ p ∈ ds.vars, ∀ j, p.2.data j = none) ∧
      (write_zarr_batch ds "temp" [some (25 / 2)]
        [[("latitude", 0), ("longitude", 1)]]).error = none ∧
      ∃ v, (write_zarr_batch ds "temp" [some (25 / 2)]
          [[("latitude", 0), ("longitude", 1)]]).store.vars.lookup "temp" =
            some v ∧
        v.data [0, 1] = some (25 / 2) ∧
        ∀ j : List ℕ, j ≠ [0, 1] → v.data j = none := by
  refine ⟨⟨[("latitude", [105 / 2, 115 / 2]), ("longitude", [-5, 5])],
          [("temp", ⟨["latitude", "longitude"], [2, 2], fun _ => none⟩)]⟩,
    ?_, rfl, rfl, ?_, ?_, ?_⟩
  · show Except.ok _ = _
    norm_num [create_empty_ds, object_store_coord, midpointsOf, singlesOf,
      List.mapM_cons]
  · intro p hp j
    rcases List.mem_cons.mp hp with rfl | hmem
    · rfl
    · simp at hmem
  · rfl
  · refine ⟨⟨["latitude", "longitude"], [2, 2],
      fun j => if j = [0, 1] then some (25 / 2) else none⟩, ?_, ?_, ?_⟩
    · rfl
    · rfl
    · intro j hj
      show (if j = [0, 1] then some ((25 : ℚ) / 2) else none) = none
      rw [if_neg hj]

/-- C8.  For a non-time dimension whose descriptor is a flat list holding a
single bare value, the legacy `_create_empty_ds` of `src/resampling/load.py`
produces the one-value coordinate axis the specification describes, but
`ObjectStore._create_empty_ds` in `src/resampling/object_store.py` lacks the
length-1 branch and instead evaluates `np.arange(ranges[0], ranges[1])`,
raising IndexError — the skeleton creation fails rather than producing the
axis. -/
theorem flat_length_one_descriptor_spec (dim : String) (q : ℚ)
    (hdim : dim ≠ "time") :
    load_coord dim [RangeEntry.scalar q] = .ok [q] ∧
    object_store_coord dim [RangeEntry.scalar q] =
      .error PyErr.indexError ∧
    load_create_empty_ds [(dim, [RangeEntry.scalar q])] ["v"] =
      .ok ⟨[(dim, [q])], [("v", ⟨[dim], [1], fun _ => none⟩)]⟩ ∧
    create_empty_ds [(dim, [RangeEntry.scalar q])] ["v"] =
      .error PyErr.indexError := by
  have hl : load_coord dim [RangeEntry.scalar q] = .ok [q] := by
    unfold load_coord
    rw [if_neg hdim]
  have ho : object_store_coord dim [RangeEntry.scalar q] =
      .error PyErr.indexError := by
    unfold object_store_coord
    rw [if_neg hdim]
  refine ⟨hl, ho, ?_, ?_⟩
  · unfold load_create_empty_ds
    rw [List.mapM_cons]
    rw [hl]
    rfl
  · unfold create_empty_ds
    rw [List.mapM_cons]
    rw [ho]
    rfl

/-- Witness for `flat_length_one_descriptor_spec` at dimension `depth`
with value `7`: the legacy path yields the axis `[7]`, the `ObjectStore`
path raises IndexError. -/
theorem flat_length_one_descriptor_spec_witness :
    load_coord "depth" [RangeEntry.scalar 7] = .ok [7] ∧
    object_store_coord "depth" [RangeEntry.scalar 7] =
      .error PyErr.indexError :=
  ⟨(flat_length_one_descriptor_spec "depth" 7 (by decide)).1,
   (flat_length_one_descriptor_spec "depth" 7 (by decide)).2.1⟩

/-- The S3 filesystem as seen through `s3fs`: which keys exist and which
are directory-shaped. -/
structure S3FS where
  keys : List String
  dirs : List String

/-- `self._s3.exists(p)`. -/
def S3FS.exists (fs : S3FS) (p : String) : Bool := fs.keys.contains p

/-- `self._s3.isdir(p)`. -/
def S3FS.isdir (fs : S3FS) (p : String) : Bool := fs.dirs.contains p

/-- `ObjectStore.check_zarr_exists(zarr_store_path)` from
`src/resampling/object_store.py`: probes `f"{self._bucket}/{zarr_store_path}"`;
true only when that full path exists and is directory-shaped, false (with a
console warning) when it exists but is not a directory, false otherwise. -/
def check_zarr_exists (fs : S3FS) (bucket zarr_store_path : String) :
    Bool :=
  let full_path := bucket ++ "/" ++ zarr_store_path
  if fs.exists full_path && fs.isdir full_path then true
  else if fs.exists full_path then false
  else false

/-- `ObjectStore.delete_zarr(zarr_store_path)` from
`src/resampling/object_store.py`: tests `self._s3.exists(zarr_store_path)`
on the argument verbatim — no bucket prefix — raising FileNotFoundError
when that key is absent, and otherwise removing it (recursively when it is
a directory). -/
def delete_zarr (fs : S3FS) (zarr_store_path : String) :
    Except PyErr S3FS :=
  if ¬ fs.exists zarr_store_path then .error .fileNotFound
  else if fs.isdir zarr_store_path then
    .ok ⟨fs.keys.filter (fun k =>
          ¬ (k = zarr_store_path ∨
             (zarr_store_path ++ "/").isPrefixOf k)),
        fs.dirs.filter (fun k =>
          ¬ (k = zarr_store_path ∨
             (zarr_store_path ++ "/").isPrefixOf k))⟩
  else
    .ok ⟨fs.keys.filter (fun k => k ≠ zarr_store_path), fs.dirs⟩

/-- C10.  `check_zarr_exists` probes the key `<bucket>/<path>` while
`delete_zarr` tests the key `<path>` verbatim, so the two operations applied
to the same argument refer to different objects: `delete_zarr` raises
FileNotFoundError for a path that `check_zarr_exists` reports as existing
whenever the bare path does not itself name an existing object. -/
theorem check_delete_key_mismatch (fs : S3FS) (bucket p : String) :
    (check_zarr_exists fs bucket p = true ↔
      fs.exists (bucket ++ "/" ++ p) = true ∧
        fs.isdir (bucket ++ "/" ++ p) = true) ∧
    ((∃ e, delete_zarr fs p = .error e) ↔ fs.exists p = false) ∧
    (check_zarr_exists fs bucket p = true → fs.exists p = false →
      delete_zarr fs p = .error PyErr.fileNotFound) := by
  refine ⟨?_, ?_, ?_⟩
  · unfold check_zarr_exists
    by_cases h1 : fs.exists (bucket ++ "/" ++ p) &&
        fs.isdir (bucket ++ "/" ++ p)
    · simp only [h1, if_pos]
      simpa using Bool.and_eq_true_iff.mp h1
    · rw [Bool.not_eq_true] at h1
      simp only [h1]
      constructor
      · intro hcontra
        by_cases h2 : fs.exists (bucket ++ "/" ++ p) = true <;>
          simp [h2] at hcontra
      · rintro ⟨he, hd⟩
        exact absurd h1 (by simp [he, hd])
  · unfold delete_zarr
    by_cases h : fs.exists p = true
    · rw [if_neg (by simp [h])]
      constructor
      · intro hcontra
        obtain ⟨e, he⟩ := hcontra
        by_cases hd : fs.isdir p = true <;> simp [hd] at he
      · intro hcontra
        rw [h] at hcontra
        exact absurd hcontra (by simp)
    · rw [Bool.not_eq_true] at h
      rw [if_pos (by simp [h])]
      exact ⟨fun _ => h, fun _ => ⟨.fileNotFound, rfl⟩⟩
  · intro _ hnot
    unfold delete_zarr
    rw [if_pos (by simp [hnot])]

/-- Witness for `check_delete_key_mismatch`: in a filesystem holding only
the directory-shaped key `"bucket/store.zarr"`, checking `"store.zarr"`
reports it exists, yet deleting `"store.zarr"` raises FileNotFoundError. -/
theorem check_delete_key_mismatch_witness :
    check_zarr_exists ⟨["bucket/store.zarr"], ["bucket/store.zarr"]⟩
      "bucket" "store.zarr" = true ∧
    delete_zarr ⟨["bucket/store.zarr"], ["bucket/store.zarr"]⟩
      "store.zarr" = .error PyErr.fileNotFound :=
  ⟨rfl,
   (check_delete_key_mismatch
     ⟨["bucket/store.zarr"], ["bucket/store.zarr"]⟩
     "bucket" "store.zarr").2.2 rfl rfl⟩

/-- `np.searchsorted(a, v)` with the default left side: the index where `v`
would be inserted to keep `a` sorted — for an ascending `a`, the number of
leading elements strictly below `v`. -/
def searchsorted (l : List ℚ) (v : ℚ) : ℕ :=
  (l.takeWhile (fun x => decide (x < v))).length

/-- `np.arange(start, stop, step)`: the values `start + i·step` for
`i < ⌈(stop - start)/step⌉`. -/
def arange (start stop step : ℚ) : List ℚ :=
  (List.range (Int.toNat ⌈(stop - start) / step⌉)).map
    (fun i : ℕ => start + (i : ℚ) * step)

/-- A regional dataset as consumed by the 2-D path of
`expand_to_global_coverage`: latitude and longitude coordinate arrays and
per-variable data indexed by (latitude row, longitude column). -/
structure RegionalDS where
  latitude : List ℚ
  longitude : List ℚ
  vars : List (String × (ℕ → ℕ → Option ℚ))

/-- The global dataset produced by `expand_to_global_coverage`. -/
structure GlobalDS where
  latitude : List ℚ
  longitude : List ℚ
  vars : List (String × (ℕ → ℕ → Option ℚ))

/-- Numpy 2-D slice assignment `g[r0:r0+nr, c0:c0+nc] = block` on an array
whose untouched cells keep their previous values. -/
def assignBlock (g : ℕ → ℕ → Option ℚ) (r0 c0 nr nc : ℕ)
    (block : ℕ → ℕ → Option ℚ) : ℕ → ℕ → Option ℚ :=
  fun i j =>
    if r0 ≤ i ∧ i < r0 + nr ∧ c0 ≤ j ∧ j < c0 + nc then
      block (i - r0) (j - c0)
    else g i j

/-- `expand_to_global_coverage(ds, step_lon, step_lat)` from
`src/resampling/make_global.py`, 2-D (no `time` dimension) path: build
global axes `np.arange(-90, 90, step_lat)` / `np.arange(-180, 180,
step_lon)` and all-NaN variables; locate the sub-rectangle via
`searchsorted` on the input's last latitude and first longitude samples;
copy each variable's data, flipped along the latitude axis, into that
rectangle.  `original_lat[-1]`/`original_lon[0]` on an empty axis raise
IndexError; a rectangle exceeding the global array makes the clipped numpy
slice-assignment raise ValueError at the first variable. -/
def expand_to_global_coverage (ds : RegionalDS) (step_lon step_lat : ℚ) :
    Except PyErr GlobalDS :=
  let global_lat := arange (-90) 90 step_lat
  let global_lon := arange (-180) 180 step_lon
  match ds.latitude.getLast?, ds.longitude.head? with
  | some lastLat, some firstLon =>
    let lat_start := searchsorted global_lat lastLat
    let lon_start := searchsorted global_lon firstLon
    if lat_start + ds.latitude.length ≤ global_lat.length ∧
        lon_start + ds.longitude.length ≤ global_lon.length then
      .ok ⟨global_lat, global_lon,
        ds.vars.map (fun p =>
          (p.1,
           assignBlock (fun _ _ => none) lat_start lon_start
             ds.latitude.length ds.longitude.length
             (fun i j => p.2 (ds.latitude.length - 1 - i) j)))⟩
    else if ds.vars.isEmpty then
      .ok ⟨global_lat, global_lon, []⟩
    else .error .valueError
  | _, _ => .error .indexError

/-- Elements of `np.arange(start, stop, step)` with `step > 0` lie in
`[start, stop)`. -/
theorem arange_mem_bounds (start stop step : ℚ) (hstep : 0 < step) :
    ∀ x ∈ arange start stop step, start ≤ x ∧ x < stop := by
  intro x hx
  obtain ⟨i, hi, rfl⟩ := List.mem_map.mp hx
  rw [List.mem_range] at hi
  constructor
  · nlinarith [Nat.cast_nonneg (α := ℚ) i, hstep.le]
  · have h1 : (i : ℤ) < ⌈(stop - start) / step⌉ := Int.lt_toNat.mp hi
    have h2 : (i : ℚ) < (stop - start) / step := by
      have := Int.lt_ceil.mp h1
      exact_mod_cast this
    have h3 : (i : ℚ) * step < stop - start := (lt_div_iff₀ hstep).mp h2
    linarith

/-- C7.  For a 2-D regional input with positive step sizes whose
sub-rectangle fits the global grid, `expand_to_global_coverage` succeeds
with global axes `np.arange(-90, 90, step_lat)` and `np.arange(-180, 180,
step_lon)` — every sample lying in `[-90, 90)` resp. `[-180, 180)` — and,
for every variable, the cell `(i, j)` of the result holds the vertically
flipped source datum when `(i, j)` lies in the rectangle starting at the
sorted-insertion index of the input's last latitude sample and the
sorted-insertion index of the input's first longitude sample, sized by the
input's axis lengths, and NaN everywhere else. -/
theorem global_expansion_spec (ds : RegionalDS) (step_lon step_lat : ℚ)
    (lastLat firstLon : ℚ) (ls los : ℕ)
    (hslat : 0 < step_lat) (hslon : 0 < step_lon)
    (hlast : ds.latitude.getLast? = some lastLat)
    (hfirst : ds.longitude.head? = some firstLon)
    (hls : ls = searchsorted (arange (-90) 90 step_lat) lastLat)
    (hlos : los = searchsorted (arange (-180) 180 step_lon) firstLon)
    (hfitlat : ls + ds.latitude.length ≤ (arange (-90) 90 step_lat).length)
    (hfitlon :
      los + ds.longitude.length ≤ (arange (-180) 180 step_lon).length) :
    expand_to_global_coverage ds step_lon step_lat =
      .ok ⟨arange (-90) 90 step_lat, arange (-180) 180 step_lon,
        ds.vars.map (fun p =>
          (p.1,
           assignBlock (fun _ _ => none) ls los
             ds.latitude.length ds.longitude.length
             (fun i j => p.2 (ds.latitude.length - 1 - i) j)))⟩ ∧
    (∀ x ∈ arange (-90) 90 step_lat, -90 ≤ x ∧ x < 90) ∧
    (∀ x ∈ arange (-180) 180 step_lon, -180 ≤ x ∧ x < 180) ∧
    ∀ p ∈ ds.vars, ∀ i j,
      assignBlock (fun _ _ => none) ls los
          ds.latitude.length ds.longitude.length
          (fun i' j' => p.2 (ds.latitude.length - 1 - i') j') i j =
        if ls ≤ i ∧ i < ls + ds.latitude.length ∧
            los ≤ j ∧ j < los + ds.longitude.length then
          p.2 (ds.latitude.length - 1 - (i - ls)) (j - los)
        else none := by
  refine ⟨?_, arange_mem_bounds _ _ _ hslat,
    arange_mem_bounds _ _ _ hslon, ?_⟩
  · unfold expand_to_global_coverage
    rw [hlast, hfirst]
    dsimp only
    rw [← hls, ← hlos, if_pos ⟨hfitlat, hfitlon⟩]
  · intro p _ i j
    unfold assignBlock
    rfl

/-- Witness for `global_expansion_spec`: a one-cell regional dataset at
`(0, 0)` with step sizes `90`/`180` expands successfully. -/
theorem global_expansion_spec_witness :
    ∃ g : GlobalDS,
      expand_to_global_coverage
        ⟨[0], [0], [("v", fun _ _ => some 5)]⟩ 180 90 = .ok g :=
  ⟨_, (global_expansion_spec ⟨[0], [0], [("v", fun _ _ => some 5)]⟩
      180 90 0 0 1 1 (by norm_num) (by norm_num) rfl rfl
      (by norm_num [searchsorted, arange, List.range_succ,
        show Int.toNat 2 = 2 from rfl, List.takeWhile])
      (by norm_num [searchsorted, arange, List.range_succ,
        show Int.toNat 2 = 2 from rfl, List.takeWhile])
      (by norm_num [arange, show Int.toNat 2 = 2 from rfl])
      (by norm_num [arange, show Int.toNat 2 = 2 from rfl])).1⟩
